import Mathlib

/-!
Post/comment consistency of the blog backend

A shallow embedding of the three comment routes of `src/index.js`
(`POST /comment-on-post`, `GET /comments/:id`, `POST /delete-comment`) together
with the two Mongoose models they use (`models/comments.js`, `models/post.js`).

The two MongoDB collections are lists of documents in natural (insertion) order.
Every store call of a handler is a function on the pair of collections; a call
either completes or throws, and a call that throws leaves the collections as they
were.  Which calls throw for reasons of the store itself (connection loss,
timeout) is chosen by the environment `Env`, which also supplies the `_id`
the driver generates for a new document.  A rejected promise that nothing awaits
ends the process, and the request then gets no response.

Request fields are JSON scalars or absent keys; arrays and objects as field
values are outside the model.
-/

namespace Blog

/-! ## Values and documents -/

/-- A field of `req.body`: `undefined` is a key that is absent from the JSON body.
A JSON number is a double; it is given by `text`, the string JavaScript prints for
it (`String(n)`: `"0"` for `0` and `-0`, `"0.5"`, `"1e+21"`), which is all the handlers
can see of it. -/
inductive JVal where
  | undefined
  | null
  | bool (b : Bool)
  | num (text : String)
  | str (s : String)
  deriving DecidableEq, Repr

/-- JavaScript truthiness, the meaning of `!x` in the guards of the handlers. -/
def JVal.truthy : JVal → Bool
  | .undefined => false
  | .null => false
  | .bool b => b
  | .num text => text != "0"
  | .str s => s != ""

/-- An ObjectId in its canonical form: 24 lower-case hexadecimal characters. -/
abbrev ObjectId := String

/-- Errors a store call can throw. -/
inductive Err where
  | validation
  | cast
  | duplicateKey
  | store
  deriving DecidableEq, Repr

deriving instance DecidableEq for Except

def isHexDigit (c : Char) : Bool :=
  c.isDigit || ('a' ≤ c && c ≤ 'f') || ('A' ≤ c && c ≤ 'F')

/-- Mongoose's cast of a value to `ObjectId`: `null` and `undefined` pass through
(here `none`), a string must be 24 hexadecimal characters, anything else is a
cast error (a number or boolean is cast through its text, which is never 24
hexadecimal characters). -/
def castObjectId : JVal → Except Err (Option ObjectId)
  | .undefined => .ok none
  | .null => .ok none
  | .str s =>
    if s.length = 24 ∧ s.toList.all isHexDigit = true then
      .ok (some (String.mk (s.toList.map Char.toLower)))
    else .error .cast
  | .bool _ => .error .cast
  | .num _ => .error .cast

/-- Mongoose's cast of a scalar to `String`: `null` and `undefined` pass through
(here `none`), a number or boolean becomes its text. -/
def castString : JVal → Option String
  | .undefined => none
  | .null => none
  | .str s => some s
  | .num text => some text
  | .bool b => some (toString b)

/-- A path declared `{ type: String, required: true }`: the value must cast to a
non-empty string. -/
def requiredString (v : JVal) : Except Err String :=
  match castString v with
  | some s => if s = "" then .error .validation else .ok s
  | none => .error .validation

/-- A path declared `{ type: ObjectId, required: true }`; a failed cast is reported
by validation as well. -/
def requiredObjectId (v : JVal) : Except Err ObjectId :=
  match castObjectId v with
  | .ok (some i) => .ok i
  | .ok none => .error .validation
  | .error _ => .error .validation

/-- A document of the `Comment` model (`commentSchema`). -/
structure CommentDoc where
  _id : ObjectId
  comment : String
  user : ObjectId
  username : String
  name : String
  post : ObjectId
  date : String
  title : String
  deriving DecidableEq, Repr

/-- An element of `postSchema.comments`.  The subdocument has an `_id` of its own
(Mongoose adds one to every subdocument schema); the declared paths are optional. -/
structure CommentSummary where
  _id : ObjectId
  commentID : Option String
  comment : Option String
  date : Option String
  username : Option String
  name : Option String
  deriving DecidableEq, Repr

/-- A document of the `Post` model (`postSchema`). -/
structure PostDoc where
  _id : ObjectId
  title : String
  discription : String
  image : Option String
  user : ObjectId
  name : String
  username : String
  date : String
  imageID : String
  comments : List CommentSummary
  deriving DecidableEq, Repr

/-- The two collections. -/
structure Db where
  comments : List CommentDoc
  posts : List PostDoc
  deriving DecidableEq, Repr

/-- The store calls the comment routes make. -/
inductive StoreCall where
  | commentCreate
  | commentSave
  | postFindById
  | postSave
  | commentFind
  | commentFindById
  | postFindByIdAndUpdate
  | commentFindByIdAndDelete
  deriving DecidableEq, Repr

/-- What the handler does not control: the `_id` generated for a new document and
which store calls fail. -/
structure Env where
  newId : ObjectId
  fails : StoreCall → Bool

/-! ## Responses -/

/-- The JSON body of a response: an object of scalar fields, or an array of
comment documents (`null` is the body of the 404 of `GET /comments/:id`). -/
inductive Body where
  | json (fields : List (String × JVal))
  | comments (docs : List CommentDoc)
  | null
  deriving DecidableEq, Repr

/-- The body `{message: m}`. -/
def Body.message (m : String) : Body := .json [("message", .str m)]

structure Response where
  status : Nat
  body : Body
  deriving DecidableEq, Repr

/-- What a request leaves behind: the response (`none` when the process exited
without sending one), the collections afterwards, and the collections as they stood
after each write that completed, in order. -/
structure Outcome where
  res : Option Response
  db : Db
  writes : List Db
  deriving DecidableEq, Repr

/-- The status of the response, if one was sent. -/
def Outcome.status (o : Outcome) : Option Nat := o.res.map (fun r => r.status)

/-! ## Store calls -/

/-- Apply `f` to the first element that satisfies `p` (an update addressed by `_id`
touches one document). -/
def updateFirst {α : Type} (p : α → Bool) (f : α → α) : List α → List α
  | [] => []
  | x :: xs => if p x then f x :: xs else x :: updateFirst p f xs

/-- The body passed to `Comment.create` in `POST /comment-on-post`. -/
structure CommentInput where
  comment : JVal
  user : JVal
  username : JVal
  name : JVal
  post : JVal
  date : JVal
  title : JVal
  deriving DecidableEq, Repr

/-- Casting and validation of a new `Comment` against `commentSchema`: all seven
paths are required. -/
def Comment.validate (newId : ObjectId) (o : CommentInput) : Except Err CommentDoc := do
  let comment ← requiredString o.comment
  let user ← requiredObjectId o.user
  let username ← requiredString o.username
  let name ← requiredString o.name
  let post ← requiredObjectId o.post
  let date ← requiredString o.date
  let title ← requiredString o.title
  pure { _id := newId, comment := comment, user := user, username := username,
         name := name, post := post, date := date, title := title }

/-- `Comment.create(o)`: validate, then insert; `_id` is a unique key. -/
def Comment.create (env : Env) (db : Db) (o : CommentInput) : Except Err (CommentDoc × Db) :=
  match Comment.validate env.newId o with
  | .error e => .error e
  | .ok c =>
    if env.fails .commentCreate then .error .store
    else if db.comments.any (fun d => d._id == c._id) then .error .duplicateKey
    else .ok (c, { db with comments := db.comments ++ [c] })

/-- `Comment.findById(id)`. -/
def Comment.findById (env : Env) (db : Db) (id : JVal) : Except Err (Option CommentDoc) :=
  match castObjectId id with
  | .error e => .error e
  | .ok i =>
    if env.fails .commentFindById then .error .store
    else .ok (db.comments.find? (fun c => some c._id == i))

/-- `Comment.find({user: id})`. -/
def Comment.find (env : Env) (db : Db) (id : JVal) : Except Err (List CommentDoc) :=
  match castObjectId id with
  | .error e => .error e
  | .ok i =>
    if env.fails .commentFind then .error .store
    else .ok (db.comments.filter (fun c => some c.user == i))

/-- `Comment.findByIdAndDelete(id)`: removes the one document with that `_id`. -/
def Comment.findByIdAndDelete (env : Env) (db : Db) (id : JVal) : Except Err Db :=
  match castObjectId id with
  | .error e => .error e
  | .ok i =>
    if env.fails .commentFindByIdAndDelete then .error .store
    else .ok { db with comments := db.comments.eraseP (fun c => some c._id == i) }

/-- `Post.findById(id)`. -/
def Post.findById (env : Env) (db : Db) (id : JVal) : Except Err (Option PostDoc) :=
  match castObjectId id with
  | .error e => .error e
  | .ok i =>
    if env.fails .postFindById then .error .store
    else .ok (db.posts.find? (fun p => some p._id == i))

/-- The subdocument Mongoose makes of a `Comment` document pushed onto
`post.comments`: the paths the subdocument schema declares are copied (`_id`,
`comment`, `date`, `username`, `name`), the others are dropped, and `commentID`,
which a `Comment` does not have, stays unset. -/
def summaryOf (c : CommentDoc) : CommentSummary :=
  { _id := c._id, commentID := none, comment := some c.comment, date := some c.date,
    username := some c.username, name := some c.name }

/-- `post.save()` for a loaded post: the stored document with the post's `_id` is
brought to the state of `post`. -/
def Post.save (env : Env) (db : Db) (post : PostDoc) : Except Err Db :=
  if env.fails .postSave then .error .store
  else .ok { db with posts := updateFirst (fun p => p._id == post._id) (fun _ => post) db.posts }

/-- The update `{ $pull: { comments: { _id: c } } }` on one post. -/
def pullComment (c : Option ObjectId) (p : PostDoc) : PostDoc :=
  { p with comments := p.comments.filter (fun e => some e._id != c) }

/-- `Post.findByIdAndUpdate(id, { $pull: { comments: { _id: commentId } } })`: no
error when no post has that `_id`. -/
def Post.findByIdAndUpdate (env : Env) (db : Db) (id commentId : JVal) : Except Err Db :=
  match castObjectId id, castObjectId commentId with
  | .ok i, .ok c =>
    if env.fails .postFindByIdAndUpdate then .error .store
    else .ok { db with posts := updateFirst (fun p => some p._id == i) (pullComment c) db.posts }
  | _, _ => .error .cast

/-! ## Route handlers -/

/-- The body of `POST /comment-on-post`. -/
structure CommentBody where
  comment : JVal
  userID : JVal
  username : JVal
  name : JVal
  postID : JVal
  date : JVal
  title : JVal
  deriving DecidableEq, Repr

/-- The object `POST /comment-on-post` hands to `Comment.create`. -/
def CommentBody.toInput (b : CommentBody) : CommentInput :=
  { comment := b.comment, user := b.userID, username := b.username, name := b.name,
    post := b.postID, date := b.date, title := b.title }

/-- The handler of `POST /comment-on-post`.  An error thrown by an awaited call ends
in the `catch` block.  `newComment.save()` (line 274) is not awaited: the document is
unmodified since `create`, so the save writes nothing and only reads the store to see
that the document is there; when that read fails, the rejection has no handler, the
process exits and no response is sent (the read is issued before the post step, and
its failure is taken to end the process before that step writes).  `post.comments`
on a `null` post throws. -/
def commentOnPost (env : Env) (db : Db) (body : CommentBody) : Outcome :=
  if !body.comment.truthy || !body.userID.truthy || !body.postID.truthy then
    ⟨some ⟨400, .message "Please add comment"⟩, db, []⟩
  else
    match Comment.create env db body.toInput with
    | .error _ => ⟨some ⟨500, .message "Internal Server Error on comment"⟩, db, []⟩
    | .ok (newComment, db1) =>
      if env.fails .commentSave then ⟨none, db1, [db1]⟩
      else
        match Post.findById env db1 body.postID with
        | .error _ => ⟨some ⟨500, .message "Internal Server Error on comment"⟩, db1, [db1]⟩
        | .ok none => ⟨some ⟨500, .message "Internal Server Error on comment"⟩, db1, [db1]⟩
        | .ok (some post) =>
          match Post.save env db1
              { post with comments := post.comments ++ [summaryOf newComment] } with
          | .error _ => ⟨some ⟨500, .message "Internal Server Error on comment"⟩, db1, [db1]⟩
          | .ok db2 => ⟨some ⟨200, .message "success"⟩, db2, [db1, db2]⟩

/-- The handler of `GET /comments/:id`; the route parameter is a string.  The result
of `find` is an array, which is never falsy, so the 404 branch is not taken. -/
def getComments (env : Env) (db : Db) (id : String) : Response :=
  match Comment.find env db (.str id) with
  | .error _ => ⟨500, .message "Internal Server Error on get comments"⟩
  | .ok comments => ⟨200, .comments comments⟩

/-- The body of `POST /delete-comment`. -/
structure DeleteBody where
  CommentID : JVal
  PostID : JVal
  deriving DecidableEq, Repr

/-- The handler of `POST /delete-comment`. -/
def deleteComment (env : Env) (db : Db) (body : DeleteBody) : Outcome :=
  match Comment.findById env db body.CommentID with
  | .error _ => ⟨some ⟨500, .message "Internal Server Error on delete comment"⟩, db, []⟩
  | .ok none => ⟨some ⟨404, .message "Comment not found"⟩, db, []⟩
  | .ok (some _) =>
    match Post.findByIdAndUpdate env db body.PostID body.CommentID with
    | .error _ => ⟨some ⟨500, .message "Internal Server Error on delete comment"⟩, db, []⟩
    | .ok db1 =>
      match Comment.findByIdAndDelete env db1 body.CommentID with
      | .error _ => ⟨some ⟨500, .message "Internal Server Error on delete comment"⟩, db1, [db1]⟩
      | .ok db2 => ⟨some ⟨200, .message "success"⟩, db2, [db1, db2]⟩

/-! ## States after a request, what a body holds, the invariant -/

/-- The collections a successful `POST /comment-on-post` leaves: the comment is
appended to its collection and its summary to the post found. -/
def afterCreate (db : Db) (c : CommentDoc) (post : PostDoc) : Db :=
  { comments := db.comments ++ [c],
    posts := updateFirst (fun p => p._id == post._id)
      (fun _ => { post with comments := post.comments ++ [summaryOf c] }) db.posts }

/-- The collections after the `$pull` of `POST /delete-comment`. -/
def afterPull (db : Db) (pid : Option ObjectId) (cid : ObjectId) : Db :=
  { db with posts := updateFirst (fun p => some p._id == pid) (pullComment (some cid)) db.posts }

/-- The collections after the `$pull` and the delete of `POST /delete-comment`. -/
def afterDelete (db : Db) (pid : Option ObjectId) (cid : ObjectId) : Db :=
  { comments := db.comments.eraseP (fun d => d._id == cid), posts := (afterPull db pid cid).posts }

/-- A response body has a field with the value `v`. -/
def Body.hasValue (b : Body) (v : JVal) : Bool :=
  match b with
  | .json fields => (fields.map Prod.snd).contains v
  | .comments _ => false
  | .null => false

/-- The consistency invariant of section 3 of the specification: for every post, each
entry of the embedded sequence has the `_id` of a comment in the collection, and
each comment whose `post` is the post's `_id` has exactly one entry. -/
def Inv (db : Db) : Prop :=
  ∀ p ∈ db.posts,
    (∀ e ∈ p.comments, ∃ c ∈ db.comments, c._id = e._id) ∧
    (∀ c ∈ db.comments, c.post = p._id → p.comments.countP (fun e => e._id == c._id) = 1)

instance Inv.decidable (db : Db) : Decidable (Inv db) := by
  unfold Inv
  infer_instance

/-! ## Example data -/

def noFaults (id : ObjectId) : Env := { newId := id, fails := fun _ => false }

def idU1 : ObjectId := "aaaaaaaaaaaaaaaaaaaaaaa1"
def idP1 : ObjectId := "bbbbbbbbbbbbbbbbbbbbbbb1"
def idP2 : ObjectId := "bbbbbbbbbbbbbbbbbbbbbbb2"
def idC1 : ObjectId := "ccccccccccccccccccccccc1"
def idC2 : ObjectId := "ccccccccccccccccccccccc2"

def postP1 : PostDoc :=
  { _id := idP1, title := "t1", discription := "d1", image := none, user := idU1,
    name := "Ann", username := "User_1", date := "2025-01-01", imageID := "img1",
    comments := [] }

def db0 : Db := { comments := [], posts := [postP1] }

def bodyNice : CommentBody :=
  { comment := .str "nice", userID := .str idU1, username := .str "User_1", name := .str "Ann",
    postID := .str idP1, date := .str "2025-01-02", title := .str "t1" }

def commentNice : CommentDoc :=
  { _id := idC1, comment := "nice", user := idU1, username := "User_1", name := "Ann",
    post := idP1, date := "2025-01-02", title := "t1" }

def dbNice : Db :=
  { comments := [commentNice],
    posts := [{ postP1 with comments :=
      [{ _id := idC1, commentID := none, comment := some "nice", date := some "2025-01-02",
         username := some "User_1", name := some "Ann" }] }] }

def commentSecond : CommentDoc :=
  { _id := idC2, comment := "thanks", user := idU1, username := "User_1", name := "Ann",
    post := idP1, date := "2025-01-03", title := "t1" }

def postP2 : PostDoc :=
  { _id := idP2, title := "t2", discription := "d2", image := none, user := idU1,
    name := "Ann", username := "User_1", date := "2025-01-01", imageID := "img2",
    comments := [] }

/-- Post `p1` with the comments `c1` and `c2`, post `p2` without comments. -/
def dbTwo : Db :=
  { comments := [commentNice, commentSecond],
    posts := [{ postP1 with comments := [summaryOf commentNice, summaryOf commentSecond] }, postP2] }

/-- A request for a post that does not exist. -/
def bodyNoPost : CommentBody := { bodyNice with postID := .str idP2 }

/-- The delete call fails, the others succeed. -/
def deleteFails : Env :=
  { newId := idC2, fails := fun call => decide (call = .commentFindByIdAndDelete) }

/-- All seven fields are present; `userID` is no ObjectId string. -/
def bodyUserU1 : CommentBody :=
  { comment := .str "nice", userID := .str "u1", username := .str "User_1", name := .str "Ann",
    postID := .str idP1, date := .str "2025-01-02", title := .str "t1" }

/-- The store is lost after the insert of `Comment.create`: every later call fails. -/
def storeLostAfterCreate : Env :=
  { newId := idC1, fails := fun call => decide (call ≠ .commentCreate) }

/-- A request without `username`; everything else as in `bodyNice`. -/
def bodyNoUsername : CommentBody := { bodyNice with username := .undefined }

/-! ## Lemmas on the store calls -/

theorem find?_updateFirst {α : Type} (q : α → Bool) (f : α → α) (hq : ∀ y, q y = true → q (f y) = true) :
    ∀ (l : List α) (x : α), l.find? q = some x → (updateFirst q f l).find? q = some (f x)
  | [], x, h => by simp at h
  | y :: ys, x, h => by
    by_cases hy : q y = true
    · have hx : y = x := by simpa [List.find?, hy] using h
      subst hx
      simp [updateFirst, hy, hq y hy]
    · have hys : ys.find? q = some x := by simpa [List.find?, hy] using h
      simp [updateFirst, hy, find?_updateFirst q f hq ys x hys]

theorem updateFirst_of_find?_none {α : Type} (q : α → Bool) (f : α → α) :
    ∀ (l : List α), l.find? q = none → updateFirst q f l = l
  | [], _ => rfl
  | y :: ys, h => by
    by_cases hy : q y = true
    · simp [List.find?, hy] at h
    · have hys : ys.find? q = none := by simpa [List.find?, hy] using h
      simp [updateFirst, hy, updateFirst_of_find?_none q f ys hys]

theorem truthy_of_requiredObjectId {v : JVal} {i : ObjectId} (h : requiredObjectId v = .ok i) :
    v.truthy = true := by
  cases v with
  | str s =>
    by_cases hs : s.length = 24 ∧ s.toList.all isHexDigit = true
    · have hne : s ≠ "" := by
        rintro rfl
        simp at hs
      simp [JVal.truthy, hne]
    · rw [requiredObjectId, castObjectId, if_neg hs] at h
      cases h
  | undefined => simp [requiredObjectId, castObjectId] at h
  | null => simp [requiredObjectId, castObjectId] at h
  | bool b => simp [requiredObjectId, castObjectId] at h
  | num n => simp [requiredObjectId, castObjectId] at h

theorem castObjectId_of_required {v : JVal} {i : ObjectId} (h : requiredObjectId v = .ok i) :
    castObjectId v = .ok (some i) := by
  unfold requiredObjectId at h
  split at h <;> simp_all

/-- What a successful validation says about the document it returns. -/
theorem validate_ok {newId : ObjectId} {o : CommentInput} {c : CommentDoc}
    (h : Comment.validate newId o = .ok c) :
    c._id = newId ∧ requiredString o.comment = .ok c.comment ∧ requiredObjectId o.user = .ok c.user ∧
    requiredString o.username = .ok c.username ∧ requiredString o.name = .ok c.name ∧
    requiredObjectId o.post = .ok c.post ∧ requiredString o.date = .ok c.date ∧
    requiredString o.title = .ok c.title := by
  unfold Comment.validate at h
  cases h1 : requiredString o.comment <;> simp [h1, bind, Except.bind] at h
  cases h2 : requiredObjectId o.user <;> simp [h2] at h
  cases h3 : requiredString o.username <;> simp [h3] at h
  cases h4 : requiredString o.name <;> simp [h4] at h
  cases h5 : requiredObjectId o.post <;> simp [h5] at h
  cases h6 : requiredString o.date <;> simp [h6] at h
  cases h7 : requiredString o.title <;> simp [h7, pure, Except.pure] at h
  subst h
  simp

/-- The run of `POST /comment-on-post` in which every step succeeds. -/
theorem commentOnPost_ok_eq {env : Env} {db : Db} {body : CommentBody} {c : CommentDoc}
    {post : PostDoc}
    (hcomment : body.comment.truthy = true)
    (hvalid : Comment.validate env.newId body.toInput = .ok c)
    (hpost : Post.findById env db body.postID = .ok (some post))
    (hcreate : env.fails .commentCreate = false) (hresave : env.fails .commentSave = false)
    (hsave : env.fails .postSave = false)
    (hfresh : ∀ d ∈ db.comments, d._id ≠ env.newId) :
    commentOnPost env db body
      = ⟨some ⟨200, .message "success"⟩, afterCreate db c post,
          [{ db with comments := db.comments ++ [c] }, afterCreate db c post]⟩ := by
  obtain ⟨hid, -, huser, -, -, hpostId, -, -⟩ := validate_ok hvalid
  have h1 : body.userID.truthy = true := truthy_of_requiredObjectId huser
  have h2 : body.postID.truthy = true := truthy_of_requiredObjectId hpostId
  have hany : db.comments.any (fun d => d._id == c._id) = false := by
    rw [List.any_eq_false]
    intro d hd
    simpa [hid] using hfresh d hd
  have hfind : Post.findById env { db with comments := db.comments ++ [c] } body.postID
      = .ok (some post) := hpost
  simp [commentOnPost, hcomment, h1, h2, Comment.create, hvalid, hcreate, hresave, hany, hfind,
    Post.save, hsave, afterCreate]

/-- The post found by `_id` when `findById` returns one. -/
theorem postFindById_some {env : Env} {db : Db} {id : JVal} {post : PostDoc}
    (h : Post.findById env db id = .ok (some post)) :
    castObjectId id = .ok (some post._id) ∧ env.fails .postFindById = false ∧
    db.posts.find? (fun p => p._id == post._id) = some post := by
  unfold Post.findById at h
  cases hc : castObjectId id with
  | error e => simp [hc] at h
  | ok i =>
    by_cases hf : env.fails .postFindById = true
    · simp [hc, hf] at h
    · simp only [hc, hf] at h
      have hfind : db.posts.find? (fun p => some p._id == i) = some post := by simpa using h
      have hi : i = some post._id := by
        have := List.find?_some hfind
        simp at this
        exact this.symm
      subst hi
      refine ⟨rfl, by simpa using hf, ?_⟩
      simpa using hfind

/-- The comment found by `_id` when `findById` returns one. -/
theorem commentFindById_some {env : Env} {db : Db} {id : JVal} {c : CommentDoc}
    (h : Comment.findById env db id = .ok (some c)) :
    castObjectId id = .ok (some c._id) ∧ env.fails .commentFindById = false ∧
    db.comments.find? (fun d => d._id == c._id) = some c := by
  unfold Comment.findById at h
  cases hc : castObjectId id with
  | error e => simp [hc] at h
  | ok i =>
    by_cases hf : env.fails .commentFindById = true
    · simp [hc, hf] at h
    · simp only [hc, hf] at h
      have hfind : db.comments.find? (fun d => some d._id == i) = some c := by simpa using h
      have hi : i = some c._id := by
        have := List.find?_some hfind
        simp at this
        exact this.symm
      subst hi
      refine ⟨rfl, by simpa using hf, ?_⟩
      simpa using hfind

/-- With unique keys, erasing the document with a key leaves none with that key. -/
theorem key_ne_of_mem_eraseP {α : Type} (f : α → String) (a : String) :
    ∀ l : List α, (l.map f).Nodup → ∀ d ∈ l.eraseP (fun x => f x == a), f d ≠ a
  | [], _, d, hd => by simp at hd
  | x :: xs, hnd, d, hd => by
    have hnd' : f x ∉ xs.map f ∧ (xs.map f).Nodup := by simpa using hnd
    by_cases hx : f x = a
    · have hb : (f x == a) = true := by simpa using hx
      have hd' : d ∈ xs := by simpa [List.eraseP_cons, hb] using hd
      intro hda
      exact hnd'.1 (by rw [hx, ← hda]; exact List.mem_map_of_mem f hd')
    · have hb : (f x == a) = false := by simpa using hx
      have hd' : d = x ∨ d ∈ xs.eraseP (fun x => f x == a) := by
        simpa [List.eraseP_cons, hb] using hd
      rcases hd' with rfl | hd'
      · exact hx
      · exact key_ne_of_mem_eraseP f a xs hnd'.2 d hd'

/-- The run of `POST /delete-comment` up to the delete call: the comment is found and
the `$pull` is applied. -/
theorem deleteComment_found_eq {env : Env} {db : Db} {body : DeleteBody} {c : CommentDoc}
    {pid : Option ObjectId}
    (hc : Comment.findById env db body.CommentID = .ok (some c))
    (hp : castObjectId body.PostID = .ok pid)
    (hupd : env.fails .postFindByIdAndUpdate = false) :
    deleteComment env db body =
      if env.fails .commentFindByIdAndDelete then
        ⟨some ⟨500, .message "Internal Server Error on delete comment"⟩, afterPull db pid c._id,
          [afterPull db pid c._id]⟩
      else
        ⟨some ⟨200, .message "success"⟩, afterDelete db pid c._id,
          [afterPull db pid c._id, afterDelete db pid c._id]⟩ := by
  obtain ⟨hcast, -, -⟩ := commentFindById_some hc
  by_cases hdel : env.fails .commentFindByIdAndDelete = true <;>
    simp [deleteComment, hc, Post.findByIdAndUpdate, hp, hcast, hupd, Comment.findByIdAndDelete,
      hdel, afterPull, afterDelete]

/-- A `POST /delete-comment` answered 200 found the comment, applied the `$pull` and
deleted the comment. -/
theorem deleteComment_200 {env : Env} {db : Db} {body : DeleteBody}
    (h : (deleteComment env db body).status = some 200) :
    ∃ c pid, Comment.findById env db body.CommentID = .ok (some c) ∧
      castObjectId body.PostID = .ok pid ∧
      deleteComment env db body = ⟨some ⟨200, .message "success"⟩, afterDelete db pid c._id,
          [afterPull db pid c._id, afterDelete db pid c._id]⟩ := by
  cases hc : Comment.findById env db body.CommentID with
  | error e => simp [deleteComment, hc, Outcome.status] at h
  | ok o =>
    cases o with
    | none => simp [deleteComment, hc, Outcome.status] at h
    | some c =>
      obtain ⟨hcast, -, -⟩ := commentFindById_some hc
      cases hp : castObjectId body.PostID with
      | error e => simp [deleteComment, hc, Post.findByIdAndUpdate, hp, Outcome.status] at h
      | ok pid =>
        by_cases hupd : env.fails .postFindByIdAndUpdate = true
        · simp [deleteComment, hc, Post.findByIdAndUpdate, hp, hcast, hupd, Outcome.status] at h
        · have hupd' : env.fails .postFindByIdAndUpdate = false := by simpa using hupd
          have heq := deleteComment_found_eq hc hp hupd'
          by_cases hdel : env.fails .commentFindByIdAndDelete = true
          · rw [heq] at h; simp [hdel, Outcome.status] at h
          · refine ⟨c, pid, rfl, rfl, ?_⟩
            rw [heq]; simp [hdel]

theorem postFindById_none {env : Env} {db : Db} {id : JVal}
    (h : Post.findById env db id = .ok none) :
    ∃ pid, castObjectId id = .ok pid ∧ db.posts.find? (fun p => some p._id == pid) = none := by
  unfold Post.findById at h
  cases hc : castObjectId id with
  | error e => simp [hc] at h
  | ok i =>
    by_cases hf : env.fails .postFindById = true
    · simp [hc, hf] at h
    · simp only [hc, hf] at h
      exact ⟨i, rfl, by simpa using h⟩

theorem commentCreate_ok {env : Env} {db : Db} {o : CommentInput} {c : CommentDoc} {db1 : Db}
    (h : Comment.create env db o = .ok (c, db1)) :
    Comment.validate env.newId o = .ok c ∧ (∀ d ∈ db.comments, d._id ≠ c._id) ∧
    db1 = { db with comments := db.comments ++ [c] } := by
  unfold Comment.create at h
  cases hv : Comment.validate env.newId o with
  | error e => simp [hv] at h
  | ok c0 =>
    by_cases hf : env.fails .commentCreate = true
    · simp [hv, hf] at h
    · by_cases hany : db.comments.any (fun d => d._id == c0._id) = true
      · simp [hv, hf, hany] at h
      · simp only [hv, hf, hany] at h
        have hcd : c0 = c ∧ { db with comments := db.comments ++ [c0] } = db1 := by simpa using h
        obtain ⟨rfl, rfl⟩ := hcd
        refine ⟨rfl, ?_, rfl⟩
        intro d hd hid
        exact hany (List.any_eq_true.mpr ⟨d, hd, by simpa using hid⟩)

/-- A `POST /comment-on-post` answered 200 went through every step. -/
theorem commentOnPost_200 {env : Env} {db : Db} {body : CommentBody}
    (h : (commentOnPost env db body).status = some 200) :
    ∃ c post, Comment.validate env.newId body.toInput = .ok c ∧
      (∀ d ∈ db.comments, d._id ≠ c._id) ∧
      Post.findById env db body.postID = .ok (some post) ∧
      commentOnPost env db body = ⟨some ⟨200, .message "success"⟩, afterCreate db c post,
          [{ db with comments := db.comments ++ [c] }, afterCreate db c post]⟩ := by
  by_cases hg : (!body.comment.truthy || !body.userID.truthy || !body.postID.truthy) = true
  · simp [commentOnPost, hg, Outcome.status] at h
  · have hg' : body.comment.truthy = true ∧ body.userID.truthy = true ∧
        body.postID.truthy = true := by simpa [and_assoc] using hg
    cases hcr : Comment.create env db body.toInput with
    | error e => simp [commentOnPost, hg, hcr, Outcome.status] at h
    | ok r =>
      obtain ⟨c, db1⟩ := r
      obtain ⟨hvalid, hfresh, rfl⟩ := commentCreate_ok hcr
      by_cases hre : env.fails .commentSave = true
      · simp [commentOnPost, hg, hcr, hre, Outcome.status] at h
      · cases hfind : Post.findById env { db with comments := db.comments ++ [c] }
            body.postID with
        | error e => simp [commentOnPost, hg, hcr, hre, hfind, Outcome.status] at h
        | ok o =>
          cases o with
          | none => simp [commentOnPost, hg, hcr, hre, hfind, Outcome.status] at h
          | some post =>
            by_cases hsave : env.fails .postSave = true
            · simp [commentOnPost, hg, hcr, hre, hfind, Post.save, hsave, Outcome.status] at h
            · refine ⟨c, post, hvalid, hfresh, hfind, ?_⟩
              simp [commentOnPost, hg, hcr, hre, hfind, Post.save, hsave, afterCreate]

/-- With unique keys, an element of a list updated at the key `k` is the update of
the element with that key or an element with another key. -/
theorem mem_updateFirst_key {α : Type} (key : α → String) (k : String) (f : α → α) :
    ∀ l : List α, (l.map key).Nodup → ∀ y ∈ updateFirst (fun x => key x == k) f l,
      (∃ x ∈ l, key x = k ∧ y = f x) ∨ (y ∈ l ∧ key y ≠ k)
  | [], _, y, hy => by simp [updateFirst] at hy
  | x :: xs, hnd, y, hy => by
    have hnd' : key x ∉ xs.map key ∧ (xs.map key).Nodup := by simpa using hnd
    by_cases hx : key x = k
    · have hb : (key x == k) = true := by simpa using hx
      have hy' : y = f x ∨ y ∈ xs := by simpa [updateFirst, hb] using hy
      rcases hy' with rfl | hy'
      · exact Or.inl ⟨x, by simp, hx, rfl⟩
      · refine Or.inr ⟨by simp [hy'], ?_⟩
        intro hk
        exact hnd'.1 (by rw [hx, ← hk]; exact List.mem_map_of_mem key hy')
    · have hb : (key x == k) = false := by simpa using hx
      have hy' : y = x ∨ y ∈ updateFirst (fun x => key x == k) f xs := by
        simpa [updateFirst, hb] using hy
      rcases hy' with rfl | hy'
      · exact Or.inr ⟨by simp, hx⟩
      · rcases mem_updateFirst_key key k f xs hnd'.2 y hy' with ⟨z, hz, hzk, rfl⟩ | ⟨hyl, hyk⟩
        · exact Or.inl ⟨z, by simp [hz], hzk, rfl⟩
        · exact Or.inr ⟨by simp [hyl], hyk⟩

/-- The invariant after a successful `POST /comment-on-post`. -/
theorem Inv_afterCreate {db : Db} {c : CommentDoc} {post : PostDoc}
    (hinv : Inv db) (hposts : (db.posts.map (fun p => p._id)).Nodup)
    (hfresh : ∀ d ∈ db.comments, d._id ≠ c._id)
    (hmem : post ∈ db.posts) (hpost : c.post = post._id) :
    Inv (afterCreate db c post) := by
  have hzero : post.comments.countP (fun e => e._id == c._id) = 0 := by
    rw [List.countP_eq_zero]
    intro e he
    obtain ⟨d, hd, hde⟩ := (hinv post hmem).1 e he
    have := hfresh d hd
    simpa [← hde] using this
  intro p' hp'
  rcases mem_updateFirst_key (fun p : PostDoc => p._id) post._id _ db.posts hposts p' hp' with
    ⟨x, -, -, rfl⟩ | ⟨hp, hne⟩
  · constructor
    · intro e he
      have he' : e ∈ post.comments ∨ e = summaryOf c := by simpa using he
      rcases he' with he' | rfl
      · obtain ⟨d, hd, hde⟩ := (hinv post hmem).1 e he'
        exact ⟨d, by simp [afterCreate, hd], hde⟩
      · exact ⟨c, by simp [afterCreate], rfl⟩
    · intro d hd hdp
      have hd' : d ∈ db.comments ∨ d = c := by simpa [afterCreate] using hd
      show (post.comments ++ [summaryOf c]).countP (fun e => e._id == d._id) = 1
      rw [List.countP_append]
      rcases hd' with hd' | rfl
      · have hone := (hinv post hmem).2 d hd' hdp
        have hne : c._id ≠ d._id := fun h => hfresh d hd' h.symm
        simp [hone, summaryOf, hne]
      · simp [hzero, summaryOf]
  · constructor
    · intro e he
      obtain ⟨d, hd, hde⟩ := (hinv p' hp).1 e he
      exact ⟨d, by simp [afterCreate, hd], hde⟩
    · intro d hd hdp
      have hd' : d ∈ db.comments ∨ d = c := by simpa [afterCreate] using hd
      rcases hd' with hd' | rfl
      · exact (hinv p' hp).2 d hd' hdp
      · exact absurd (hdp.symm.trans hpost) hne

/-- The invariant after a successful `POST /delete-comment`, when the post the
`$pull` addresses is the only one with an entry for the comment. -/
theorem Inv_afterDelete {db : Db} {pid : Option ObjectId} {cid : ObjectId}
    (hinv : Inv db) (hcomments : (db.comments.map (fun d => d._id)).Nodup)
    (hposts : (db.posts.map (fun p => p._id)).Nodup)
    (honly : ∀ p ∈ db.posts, pid ≠ some p._id → ∀ e ∈ p.comments, e._id ≠ cid) :
    Inv (afterDelete db pid cid) := by
  have hgone : ∀ d ∈ db.comments.eraseP (fun d => d._id == cid), d._id ≠ cid :=
    key_ne_of_mem_eraseP (fun d => d._id) cid db.comments hcomments
  have hsub : ∀ d ∈ db.comments.eraseP (fun d => d._id == cid), d ∈ db.comments :=
    fun d hd => List.mem_of_mem_eraseP hd
  have hkeep : ∀ d ∈ db.comments, d._id ≠ cid → d ∈ db.comments.eraseP (fun d => d._id == cid) :=
    fun d hd hne => (List.mem_eraseP_of_neg (by simpa using hne)).mpr hd
  -- a post that is left as it was has no entry for the comment
  have hsame : ∀ p ∈ db.posts, (∀ e ∈ p.comments, e._id ≠ cid) →
      (∀ e ∈ p.comments, ∃ c ∈ (afterDelete db pid cid).comments, c._id = e._id) ∧
      (∀ c ∈ (afterDelete db pid cid).comments, c.post = p._id →
        p.comments.countP (fun e => e._id == c._id) = 1) := by
    intro p hp hno
    constructor
    · intro e he
      obtain ⟨d, hd, hde⟩ := (hinv p hp).1 e he
      exact ⟨d, hkeep d hd (by rw [hde]; exact hno e he), hde⟩
    · intro d hd hdp
      exact (hinv p hp).2 d (hsub d hd) hdp
  intro p' hp'
  cases pid with
  | none =>
    have hid : (afterDelete db none cid).posts = db.posts := by
      simp only [afterDelete, afterPull]
      apply updateFirst_of_find?_none
      simp
    rw [hid] at hp'
    exact hsame p' hp' (honly p' hp' (by simp))
  | some k =>
    have hp'' : p' ∈ updateFirst (fun p : PostDoc => p._id == k) (pullComment (some cid)) db.posts := by
      simpa [afterDelete, afterPull] using hp'
    rcases mem_updateFirst_key (fun p : PostDoc => p._id) k _ db.posts hposts p' hp'' with
      ⟨x, hx, -, rfl⟩ | ⟨hp, hne⟩
    · constructor
      · intro e he
        have he' : e ∈ x.comments ∧ e._id ≠ cid := by simpa [pullComment] using he
        obtain ⟨d, hd, hde⟩ := (hinv x hx).1 e he'.1
        exact ⟨d, hkeep d hd (by rw [hde]; exact he'.2), hde⟩
      · intro d hd hdp
        have hone := (hinv x hx).2 d (hsub d hd) hdp
        have hdne : d._id ≠ cid := hgone d hd
        show (x.comments.filter (fun e => some e._id != some cid)).countP
          (fun e => e._id == d._id) = 1
        rw [List.countP_filter, ← hone]
        apply List.countP_congr
        intro e _
        constructor
        · intro h; simp at h; simpa using h.1
        · intro h
          have hed : e._id = d._id := by simpa using h
          simp [hed, hdne]
    · exact hsame p' hp (honly p' hp (by simpa using fun h => hne h.symm))

/-! ## The claims -/

/-- C1: a `POST /comment-on-post` whose `comment`, `userID` or `postID` is falsy
(absent, `null`, empty, `0` or `false`) is answered 400 `{message: "Please add comment"}`;
both collections are as before and no write was made. -/
theorem commentOnPost_falsy_400 (env : Env) (db : Db) (body : CommentBody)
    (h : body.comment.truthy = false ∨ body.userID.truthy = false ∨ body.postID.truthy = false) :
    commentOnPost env db body = ⟨some ⟨400, .message "Please add comment"⟩, db, []⟩ := by
  unfold commentOnPost
  rcases h with h | h | h <;> simp [h]

theorem commentOnPost_falsy_400_witness :
    (JVal.str "").truthy = false ∧
    commentOnPost (noFaults idC1) db0 { bodyNice with comment := .str "" }
      = ⟨some ⟨400, .message "Please add comment"⟩, db0, []⟩ :=
  ⟨by decide, commentOnPost_falsy_400 _ _ _ (Or.inl (by decide))⟩

/-- C2 (as the code has it): a request that passes the guard and whose seven fields
satisfy the schema (the ids are ObjectId strings, the texts are not empty), whose
`postID` resolves to a post, with a fresh `_id` and no store failure, is
answered 200 `{message: "success"}`; the new comment is in the answer of
`GET /comments/:id` for its author; the post's embedded sequence is the previous one
with one entry appended, which carries the comment's id, text, date, name and
username; the id occurs exactly once and the length grows by one. -/
theorem commentOnPost_success (env : Env) (db : Db) (body : CommentBody) (c : CommentDoc)
    (post : PostDoc)
    (hcomment : body.comment.truthy = true)
    (hvalid : Comment.validate env.newId body.toInput = .ok c)
    (hpost : Post.findById env db body.postID = .ok (some post))
    (hok : ∀ call, env.fails call = false)
    (hfreshC : ∀ d ∈ db.comments, d._id ≠ env.newId)
    (hfreshP : ∀ e ∈ post.comments, e._id ≠ env.newId) :
    (commentOnPost env db body).res = some ⟨200, .message "success"⟩ ∧
    (commentOnPost env db body).db.comments = db.comments ++ [c] ∧
    (∀ (env2 : Env) (id : String), env2.fails .commentFind = false →
      castObjectId (.str id) = castObjectId body.userID →
      ∃ cs, getComments env2 (commentOnPost env db body).db id = ⟨200, .comments cs⟩ ∧ c ∈ cs) ∧
    Post.findById env (commentOnPost env db body).db body.postID
      = .ok (some { post with comments := post.comments ++ [summaryOf c] }) ∧
    (summaryOf c)._id = env.newId ∧ c._id = env.newId ∧
    castString body.comment = (summaryOf c).comment ∧ castString body.date = (summaryOf c).date ∧
    castString body.name = (summaryOf c).name ∧
    castString body.username = (summaryOf c).username ∧
    (post.comments ++ [summaryOf c]).countP (fun e => e._id == env.newId) = 1 ∧
    (post.comments ++ [summaryOf c]).length = post.comments.length + 1 := by
  have heq := commentOnPost_ok_eq hcomment hvalid hpost (hok _) (hok _) (hok _) hfreshC
  obtain ⟨hid, hc, huser, hun, hn, hpostId, hd, -⟩ := validate_ok hvalid
  obtain ⟨hcast, -, hfind⟩ := postFindById_some hpost
  have hstr : ∀ {v : JVal} {s : String}, requiredString v = .ok s → castString v = some s := by
    intro v s h
    unfold requiredString at h
    split at h
    · split at h <;> simp_all
    · simp at h
  rw [heq]
  refine ⟨rfl, rfl, ?_, ?_, hid, hid, hstr hc, hstr hd, hstr hn, hstr hun, ?_, by simp⟩
  · intro env2 id hf hcid
    have hu : castObjectId (.str id) = .ok (some c.user) := by
      rw [hcid]; exact castObjectId_of_required huser
    refine ⟨(db.comments ++ [c]).filter (fun d => some d.user == some c.user), ?_, ?_⟩
    · simp [getComments, Comment.find, hu, hf, afterCreate]
    · simp
  · have hq : ∀ y : PostDoc, (fun p : PostDoc => p._id == post._id) y = true →
        (fun p : PostDoc => p._id == post._id)
          ((fun _ => { post with comments := post.comments ++ [summaryOf c] }) y) = true := by
      intro y _; simp
    have := find?_updateFirst _ _ hq db.posts post hfind
    simp only [Post.findById, hcast, hok, afterCreate]
    simpa using this
  · rw [List.countP_append]
    have h0 : post.comments.countP (fun e => e._id == env.newId) = 0 := by
      rw [List.countP_eq_zero]
      intro e he
      simpa using hfreshP e he
    simp [h0, summaryOf, hid]

/-- C2, counterexample: all seven fields are present and `postID` resolves to post
`p1`, but `userID` is `"u1"`, which is no ObjectId: the answer is 500 and nothing is
written, although no store call fails. -/
theorem commentOnPost_present_fields_500 :
    bodyUserU1.userID = .str "u1" ∧
    Post.findById (noFaults idC1) db0 bodyUserU1.postID = .ok (some postP1) ∧
    (noFaults idC1).fails = (fun _ => false) ∧
    commentOnPost (noFaults idC1) db0 bodyUserU1
      = ⟨some ⟨500, .message "Internal Server Error on comment"⟩, db0, []⟩ :=
  ⟨rfl, by decide, rfl, by decide⟩

theorem commentOnPost_success_witness :
    (commentOnPost (noFaults idC1) db0 bodyNice).res = some ⟨200, .message "success"⟩ ∧
    (commentOnPost (noFaults idC1) db0 bodyNice).db = dbNice ∧
    getComments (noFaults idC2) (commentOnPost (noFaults idC1) db0 bodyNice).db idU1
      = ⟨200, .comments dbNice.comments⟩ :=
  ⟨(commentOnPost_success (noFaults idC1) db0 bodyNice commentNice postP1
      (by decide) (by decide) (by decide) (fun _ => rfl) (by decide) (by decide)).1,
    by decide, by decide⟩

/-- C3: when `CommentID` resolves to the comment `c` and `PostID` to the post `p`
whose sequence has an entry for `c`, and no store call fails, `POST /delete-comment`
is answered 200 `{message: "success"}`; no comment with the id of `c` is left in the
collection or in any answer of `GET /comments/:id`; the sequence of `p` is the old
one without the entries for `c`, the others in their order. -/
theorem deleteComment_success (env : Env) (db : Db) (body : DeleteBody) (c : CommentDoc)
    (p : PostDoc)
    (hc : Comment.findById env db body.CommentID = .ok (some c))
    (hp : Post.findById env db body.PostID = .ok (some p))
    (hin : ∃ e ∈ p.comments, e._id = c._id)
    (hok : ∀ call, env.fails call = false)
    (huniq : (db.comments.map (fun d => d._id)).Nodup) :
    (deleteComment env db body).res = some ⟨200, .message "success"⟩ ∧
    (deleteComment env db body).db.comments = db.comments.eraseP (fun d => d._id == c._id) ∧
    (∀ d ∈ (deleteComment env db body).db.comments, d._id ≠ c._id) ∧
    (∀ (env2 : Env) (id : String) (cs : List CommentDoc),
      getComments env2 (deleteComment env db body).db id = ⟨200, .comments cs⟩ →
      ∀ d ∈ cs, d._id ≠ c._id) ∧
    Post.findById env (deleteComment env db body).db body.PostID
      = .ok (some { p with comments := p.comments.filter (fun e => e._id != c._id) }) ∧
    (∀ e ∈ p.comments.filter (fun e => e._id != c._id), e._id ≠ c._id) ∧
    (p.comments.filter (fun e => e._id != c._id)).length < p.comments.length := by
  obtain ⟨hcast, -, hfind⟩ := postFindById_some hp
  have heq := deleteComment_found_eq hc hcast (hok _)
  rw [hok] at heq
  have hgone : ∀ d ∈ db.comments.eraseP (fun d => d._id == c._id), d._id ≠ c._id :=
    key_ne_of_mem_eraseP (fun d => d._id) c._id db.comments huniq
  rw [heq]
  refine ⟨rfl, rfl, hgone, ?_, ?_, ?_, ?_⟩
  · intro env2 id cs hget d hd
    have hcs : ∃ i, cs = (db.comments.eraseP (fun d => d._id == c._id)).filter
        (fun d => some d.user == i) := by
      unfold getComments Comment.find at hget
      cases hi : castObjectId (.str id) with
      | error e => simp [hi] at hget
      | ok i =>
        by_cases hf : env2.fails .commentFind = true
        · simp [hi, hf] at hget
        · refine ⟨i, ?_⟩
          simp only [hi, hf] at hget
          simpa [afterDelete] using hget.symm
    obtain ⟨i, rfl⟩ := hcs
    exact hgone d (List.mem_of_mem_filter hd)
  · have hq : ∀ y : PostDoc, (fun q : PostDoc => q._id == p._id) y = true →
        (fun q : PostDoc => q._id == p._id) (pullComment (some c._id) y) = true := by
      intro y hy; simpa [pullComment] using hy
    have := find?_updateFirst _ _ hq db.posts p hfind
    simp only [Post.findById, hcast, hok, afterDelete, afterPull]
    simpa [pullComment] using this
  · intro e he
    simpa using (List.mem_filter.mp he).2
  · rw [List.length_filter_lt_length_iff_exists]
    obtain ⟨e, he, hid⟩ := hin
    exact ⟨e, he, by simp [hid]⟩

theorem deleteComment_success_witness :
    (deleteComment (noFaults idC1) dbTwo ⟨.str idC1, .str idP1⟩).res = some ⟨200, .message "success"⟩ ∧
    Post.findById (noFaults idC1) (deleteComment (noFaults idC1) dbTwo ⟨.str idC1, .str idP1⟩).db
      (.str idP1) = .ok (some { postP1 with comments := [summaryOf commentSecond] }) :=
  have h := deleteComment_success (noFaults idC1) dbTwo ⟨.str idC1, .str idP1⟩ commentNice
    { postP1 with comments := [summaryOf commentNice, summaryOf commentSecond] }
    (by decide) (by decide) (by decide) (fun _ => rfl) (by decide)
  ⟨h.1, by decide⟩

/-- C4 (as the code has it): when `CommentID` is absent, `null` or an ObjectId
string and no comment has that `_id`, and the lookup itself does not fail,
`POST /delete-comment` is answered 404 `{message: "Comment not found"}` and writes
nothing, whatever `PostID` is; when `CommentID` is anything else the lookup throws
and the answer is 500, again without a write; and after a request answered 200,
the same request again is answered 404 and leaves the collections as the first
left them. -/
theorem deleteComment_unresolved (env : Env) (db : Db) (body : DeleteBody) :
    (∀ i : Option ObjectId, castObjectId body.CommentID = .ok i →
      (∀ c ∈ db.comments, some c._id ≠ i) → env.fails .commentFindById = false →
      deleteComment env db body = ⟨some ⟨404, .message "Comment not found"⟩, db, []⟩) ∧
    (∀ e : Err, castObjectId body.CommentID = .error e →
      deleteComment env db body
        = ⟨some ⟨500, .message "Internal Server Error on delete comment"⟩, db, []⟩) ∧
    (∀ env2 : Env, (db.comments.map (fun d => d._id)).Nodup →
      (deleteComment env db body).status = some 200 → env2.fails .commentFindById = false →
      deleteComment env2 (deleteComment env db body).db body
        = ⟨some ⟨404, .message "Comment not found"⟩, (deleteComment env db body).db, []⟩) := by
  refine ⟨?_, ?_, ?_⟩
  · intro i hi hno hf
    have hfind : db.comments.find? (fun c => some c._id == i) = none := by
      rw [List.find?_eq_none]
      intro c hc
      simpa using hno c hc
    simp [deleteComment, Comment.findById, hi, hf, hfind]
  · intro e he
    simp [deleteComment, Comment.findById, he]
  · intro env2 huniq h200 hf
    obtain ⟨c, pid, hc, -, heq⟩ := deleteComment_200 h200
    obtain ⟨hcast, -, -⟩ := commentFindById_some hc
    have hgone : ∀ d ∈ db.comments.eraseP (fun d => d._id == c._id), d._id ≠ c._id :=
      key_ne_of_mem_eraseP (fun d => d._id) c._id db.comments huniq
    have hnone : Comment.findById env2 (afterDelete db pid c._id) body.CommentID = .ok none := by
      have : (db.comments.eraseP (fun d => d._id == c._id)).find? (fun d => d._id == c._id)
          = none := by
        rw [List.find?_eq_none]
        intro d hd
        simpa using hgone d hd
      simp [Comment.findById, hcast, hf, afterDelete, this]
    rw [heq]
    simp [deleteComment, hnone]

theorem deleteComment_unresolved_witness :
    deleteComment (noFaults idC1) dbTwo ⟨.str "dddddddddddddddddddddddd", .str idP1⟩
      = ⟨some ⟨404, .message "Comment not found"⟩, dbTwo, []⟩ ∧
    deleteComment (noFaults idC1) dbTwo ⟨.undefined, .str idP1⟩
      = ⟨some ⟨404, .message "Comment not found"⟩, dbTwo, []⟩ ∧
    deleteComment (noFaults idC1) dbTwo ⟨.str "not an id", .str idP1⟩
      = ⟨some ⟨500, .message "Internal Server Error on delete comment"⟩, dbTwo, []⟩ ∧
    deleteComment (noFaults idC2)
        (deleteComment (noFaults idC1) dbTwo ⟨.str idC1, .str idP1⟩).db ⟨.str idC1, .str idP1⟩
      = ⟨some ⟨404, .message "Comment not found"⟩,
          (deleteComment (noFaults idC1) dbTwo ⟨.str idC1, .str idP1⟩).db, []⟩ :=
  ⟨(deleteComment_unresolved (noFaults idC1) dbTwo
      ⟨.str "dddddddddddddddddddddddd", .str idP1⟩).1
      (some "dddddddddddddddddddddddd") (by decide) (by decide) rfl,
    (deleteComment_unresolved (noFaults idC1) dbTwo ⟨.undefined, .str idP1⟩).1 none
      rfl (by decide) rfl,
    (deleteComment_unresolved (noFaults idC1) dbTwo ⟨.str "not an id", .str idP1⟩).2.1
      .cast (by decide),
    (deleteComment_unresolved (noFaults idC1) dbTwo ⟨.str idC1, .str idP1⟩).2.2 (noFaults idC2)
      (by decide) (by decide) rfl⟩

/-- C4, counterexample: `"c1"` is the `_id` of no comment, yet the answer is 500, not
404: the lookup throws on a string that is no ObjectId. -/
theorem deleteComment_malformed_id_500 :
    (∀ c ∈ dbTwo.comments, c._id ≠ "c1") ∧
    (noFaults idC1).fails = (fun _ => false) ∧
    deleteComment (noFaults idC1) dbTwo ⟨.str "c1", .str idP1⟩
      = ⟨some ⟨500, .message "Internal Server Error on delete comment"⟩, dbTwo, []⟩ :=
  ⟨by decide, rfl, by decide⟩

/-- The post step fails after `Comment.create` and the un-awaited
`newComment.save()` went through: the answer is 500
`{message: "Internal Server Error on comment"}`, the new comment stays in its
collection and the posts are as before. -/
theorem commentOnPost_post_step_fails (env : Env) (db : Db) (body : CommentBody)
    (c : CommentDoc) (db1 : Db)
    (hcomment : body.comment.truthy = true)
    (hcreate : Comment.create env db body.toInput = .ok (c, db1))
    (hresave : env.fails .commentSave = false)
    (hfail : (∀ p ∈ db.posts, castObjectId body.postID ≠ .ok (some p._id)) ∨
      env.fails .postFindById = true ∨ env.fails .postSave = true) :
    (commentOnPost env db body).res = some ⟨500, .message "Internal Server Error on comment"⟩ ∧
    (commentOnPost env db body).db.comments = db.comments ++ [c] ∧
    c ∈ (commentOnPost env db body).db.comments ∧
    (commentOnPost env db body).db.posts = db.posts := by
  obtain ⟨hvalid, -, rfl⟩ := commentCreate_ok hcreate
  obtain ⟨-, -, huser, -, -, hpostId, -, -⟩ := validate_ok hvalid
  have h1 : body.userID.truthy = true := truthy_of_requiredObjectId huser
  have h2 : body.postID.truthy = true := truthy_of_requiredObjectId hpostId
  cases hfind : Post.findById env { db with comments := db.comments ++ [c] } body.postID with
  | error e => simp [commentOnPost, hcomment, h1, h2, hcreate, hresave, hfind]
  | ok o =>
    cases o with
    | none => simp [commentOnPost, hcomment, h1, h2, hcreate, hresave, hfind]
    | some post =>
      obtain ⟨hcast, hnf, hmem⟩ := postFindById_some hfind
      have hsave : env.fails .postSave = true := by
        rcases hfail with h | h | h
        · exact absurd hcast (h post (List.mem_of_find?_eq_some hmem))
        · rw [hnf] at h; cases h
        · exact h
      simp [commentOnPost, hcomment, h1, h2, hcreate, hresave, hfind, Post.save, hsave]

theorem commentOnPost_post_step_fails_example :
    (commentOnPost (noFaults idC1) db0 bodyNoPost).res
      = some ⟨500, .message "Internal Server Error on comment"⟩ ∧
    (commentOnPost (noFaults idC1) db0 bodyNoPost).db
      = { comments := [{ commentNice with post := idP2 }], posts := db0.posts } :=
  have h := commentOnPost_post_step_fails (noFaults idC1) db0 bodyNoPost
    { commentNice with post := idP2 } { db0 with comments := [{ commentNice with post := idP2 }] }
    (by decide) (by decide) rfl (Or.inl (by decide))
  ⟨h.1, by decide⟩

/-- C6, the failing run: the request is valid and its post exists, `Comment.create`
writes the comment, then the store is lost.  The read of the un-awaited
`newComment.save()` is rejected with no handler, so the process exits: the caller
gets no response at all, not the 500 of the `catch` block.  The comment is in its
collection and the posts are as before. -/
theorem commentOnPost_store_lost_no_response :
    Comment.create storeLostAfterCreate db0 bodyNice.toInput
      = .ok (commentNice, { db0 with comments := [commentNice] }) ∧
    storeLostAfterCreate.fails .postFindById = true ∧
    commentOnPost storeLostAfterCreate db0 bodyNice
      = ⟨none, { comments := [commentNice], posts := db0.posts },
          [{ comments := [commentNice], posts := db0.posts }]⟩ := by
  decide

/-- C7: in `POST /delete-comment` the `$pull` on the post comes before the delete of
the comment.  When the lookup and the `$pull` succeed and the delete fails, the
answer is 500, the posts are the pulled ones (the sequence of the post found has no
entry for the comment) and the comment is still in its collection.  In every run,
a state in which the comment collection has changed has the `$pull` applied; in a
run answered 200 the state after the first write has the `$pull` applied and the
comment collection untouched. -/
theorem deleteComment_pull_before_delete (env : Env) (db : Db) (body : DeleteBody) :
    (∀ (c : CommentDoc) (pid : Option ObjectId),
      Comment.findById env db body.CommentID = .ok (some c) →
      castObjectId body.PostID = .ok pid →
      env.fails .postFindByIdAndUpdate = false →
      env.fails .commentFindByIdAndDelete = true →
      (deleteComment env db body).res
        = some ⟨500, .message "Internal Server Error on delete comment"⟩ ∧
      (deleteComment env db body).db = afterPull db pid c._id ∧
      (deleteComment env db body).db.comments = db.comments ∧
      c ∈ (deleteComment env db body).db.comments ∧
      (∀ p, db.posts.find? (fun q => some q._id == pid) = some p →
        (deleteComment env db body).db.posts.find? (fun q => some q._id == pid)
          = some { p with comments := p.comments.filter (fun e => e._id != c._id) })) ∧
    (∀ s ∈ (deleteComment env db body).writes ++ [(deleteComment env db body).db],
      s.comments ≠ db.comments →
      ∃ (c : CommentDoc) (pid : Option ObjectId),
        Comment.findById env db body.CommentID = .ok (some c) ∧
        castObjectId body.PostID = .ok pid ∧ s.posts = (afterPull db pid c._id).posts) ∧
    ((deleteComment env db body).status = some 200 →
      ∃ (c : CommentDoc) (pid : Option ObjectId),
        Comment.findById env db body.CommentID = .ok (some c) ∧
        castObjectId body.PostID = .ok pid ∧
        (deleteComment env db body).writes = [afterPull db pid c._id, afterDelete db pid c._id] ∧
        (afterPull db pid c._id).comments = db.comments) := by
  refine ⟨?_, ?_, ?_⟩
  · intro c pid hc hp hupd hdel
    have heq := deleteComment_found_eq hc hp hupd
    rw [hdel] at heq
    obtain ⟨-, -, hfind⟩ := commentFindById_some hc
    rw [heq]
    refine ⟨rfl, rfl, rfl, List.mem_of_find?_eq_some hfind, ?_⟩
    intro p hpf
    have hq : ∀ y : PostDoc, (fun q : PostDoc => some q._id == pid) y = true →
        (fun q : PostDoc => some q._id == pid) (pullComment (some c._id) y) = true := by
      intro y hy; simpa [pullComment] using hy
    have := find?_updateFirst _ _ hq db.posts p hpf
    simpa [afterPull, pullComment] using this
  · intro s hs hne
    cases hc : Comment.findById env db body.CommentID with
    | error e => simp [deleteComment, hc] at hs; exact absurd (by rw [hs]) hne
    | ok o =>
      cases o with
      | none => simp [deleteComment, hc] at hs; exact absurd (by rw [hs]) hne
      | some c =>
        obtain ⟨hcast, -, -⟩ := commentFindById_some hc
        cases hp : castObjectId body.PostID with
        | error e =>
          simp [deleteComment, hc, Post.findByIdAndUpdate, hp] at hs
          exact absurd (by rw [hs]) hne
        | ok pid =>
          by_cases hupd : env.fails .postFindByIdAndUpdate = true
          · simp [deleteComment, hc, Post.findByIdAndUpdate, hp, hcast, hupd] at hs
            exact absurd (by rw [hs]) hne
          · have hupd' : env.fails .postFindByIdAndUpdate = false := by simpa using hupd
            have heq := deleteComment_found_eq hc hp hupd'
            refine ⟨c, pid, rfl, rfl, ?_⟩
            rw [heq] at hs
            by_cases hdel : env.fails .commentFindByIdAndDelete = true
            · simp [hdel] at hs
              rw [hs]
            · simp [hdel] at hs
              rcases hs with rfl | rfl
              · rfl
              · rfl
  · intro h200
    obtain ⟨c, pid, hc, hp, heq⟩ := deleteComment_200 h200
    exact ⟨c, pid, hc, hp, by rw [heq], rfl⟩

theorem deleteComment_pull_before_delete_witness :
    (deleteComment deleteFails dbNice ⟨.str idC1, .str idP1⟩).res
      = some ⟨500, .message "Internal Server Error on delete comment"⟩ ∧
    (deleteComment deleteFails dbNice ⟨.str idC1, .str idP1⟩).db
      = { comments := [commentNice], posts := [postP1] } :=
  have h := (deleteComment_pull_before_delete deleteFails dbNice ⟨.str idC1, .str idP1⟩).1
    commentNice (some idP1) (by decide) (by decide) (by decide) (by decide)
  ⟨h.1, by decide⟩

/-- C8 (as the code has it): `CommentID` resolves to the comment `c`, no post has
the `_id` `PostID`, and no store call fails.  When `PostID` is absent, `null` or an
ObjectId string, `POST /delete-comment` deletes the comment, answers 200
`{message: "success"}` and leaves the posts as they were.  When `PostID` is anything
else the `$pull` throws: the answer is 500, nothing is written and the comment is
still in its collection. -/
theorem deleteComment_post_unresolved (env : Env) (db : Db) (body : DeleteBody) (c : CommentDoc)
    (hc : Comment.findById env db body.CommentID = .ok (some c))
    (hp : ∀ p ∈ db.posts, castObjectId body.PostID ≠ .ok (some p._id))
    (hok : ∀ call, env.fails call = false)
    (huniq : (db.comments.map (fun d => d._id)).Nodup) :
    (∀ pid : Option ObjectId, castObjectId body.PostID = .ok pid →
      (deleteComment env db body).res = some ⟨200, .message "success"⟩ ∧
      (deleteComment env db body).db.posts = db.posts ∧
      (deleteComment env db body).db.comments = db.comments.eraseP (fun d => d._id == c._id) ∧
      (∀ d ∈ (deleteComment env db body).db.comments, d._id ≠ c._id) ∧
      c ∉ (deleteComment env db body).db.comments) ∧
    (∀ e : Err, castObjectId body.PostID = .error e →
      deleteComment env db body
        = ⟨some ⟨500, .message "Internal Server Error on delete comment"⟩, db, []⟩ ∧
      c ∈ (deleteComment env db body).db.comments) := by
  obtain ⟨-, -, hfindc⟩ := commentFindById_some hc
  constructor
  · intro pid hcast
    have hnone : db.posts.find? (fun p => some p._id == pid) = none := by
      rw [List.find?_eq_none]
      intro p hpm hbeq
      have : pid = some p._id := by simpa using (beq_iff_eq.mp hbeq).symm
      exact hp p hpm (by rw [hcast, this])
    have heq := deleteComment_found_eq hc hcast (hok _)
    rw [hok] at heq
    have hgone : ∀ d ∈ db.comments.eraseP (fun d => d._id == c._id), d._id ≠ c._id :=
      key_ne_of_mem_eraseP (fun d => d._id) c._id db.comments huniq
    rw [heq]
    refine ⟨rfl, ?_, rfl, hgone, fun hmem => hgone c hmem rfl⟩
    simp [afterDelete, afterPull, updateFirst_of_find?_none _ _ db.posts hnone]
  · intro e he
    have heq : deleteComment env db body
        = ⟨some ⟨500, .message "Internal Server Error on delete comment"⟩, db, []⟩ := by
      simp [deleteComment, hc, Post.findByIdAndUpdate, he]
    rw [heq]
    exact ⟨rfl, List.mem_of_find?_eq_some hfindc⟩

theorem deleteComment_post_unresolved_witness :
    (deleteComment (noFaults idC2) dbNice ⟨.str idC1, .str idP2⟩).res
      = some ⟨200, .message "success"⟩ ∧
    (deleteComment (noFaults idC2) dbNice ⟨.str idC1, .str idP2⟩).db
      = { comments := [], posts := dbNice.posts } ∧
    deleteComment (noFaults idC2) dbNice ⟨.str idC1, .str "nowhere"⟩
      = ⟨some ⟨500, .message "Internal Server Error on delete comment"⟩, dbNice, []⟩ :=
  have h := deleteComment_post_unresolved (noFaults idC2) dbNice ⟨.str idC1, .str idP2⟩
    commentNice (by decide) (by decide) (fun _ => rfl) (by decide)
  have h2 := deleteComment_post_unresolved (noFaults idC2) dbNice ⟨.str idC1, .str "nowhere"⟩
    commentNice (by decide) (by decide) (fun _ => rfl) (by decide)
  ⟨(h.1 (some idP2) (by decide)).1, by decide, (h2.2 .cast (by decide)).1⟩

/-- C8, counterexample: `CommentID` resolves to comment `c1` and `"p1"` is the `_id`
of no post, yet the comment is not deleted and the answer is 500, not 200: the
`$pull` throws on a `PostID` that is no ObjectId. -/
theorem deleteComment_malformed_post_500 :
    Comment.findById (noFaults idC2) dbNice (.str idC1) = .ok (some commentNice) ∧
    (∀ p ∈ dbNice.posts, p._id ≠ "p1") ∧
    (noFaults idC2).fails = (fun _ => false) ∧
    deleteComment (noFaults idC2) dbNice ⟨.str idC1, .str "p1"⟩
      = ⟨some ⟨500, .message "Internal Server Error on delete comment"⟩, dbNice, []⟩ ∧
    commentNice ∈ (deleteComment (noFaults idC2) dbNice ⟨.str idC1, .str "p1"⟩).db.comments :=
  ⟨by decide, by decide, rfl, by decide, by decide⟩

/-- C9 (as the code has it): a `POST /comment-on-post` answered 200 has the body
`{message: "success"}` and nothing else: the only value in it is the text
`"success"`, so neither the id of the created comment nor the comment count of the
post is returned. -/
theorem commentOnPost_success_body (env : Env) (db : Db) (body : CommentBody)
    (h : (commentOnPost env db body).status = some 200) :
    (commentOnPost env db body).res = some ⟨200, .json [("message", .str "success")]⟩ ∧
    ∀ r, (commentOnPost env db body).res = some r →
      ∀ v, r.body.hasValue v = true → v = .str "success" := by
  obtain ⟨c, post, -, -, -, heq⟩ := commentOnPost_200 h
  rw [heq]
  refine ⟨rfl, ?_⟩
  intro r hr v hv
  have hr' : r = ⟨200, .message "success"⟩ := by simpa using hr.symm
  subst hr'
  simpa [Body.message, Body.hasValue, eq_comm] using hv

theorem commentOnPost_success_body_witness :
    (commentOnPost (noFaults idC1) db0 bodyNice).res
      = some ⟨200, .json [("message", .str "success")]⟩ :=
  (commentOnPost_success_body (noFaults idC1) db0 bodyNice (by decide)).1

/-- C9, counterexample: the first comment on post `p1` is created with id `c1` and the
sequence of `p1` then has one entry, but the 200 response carries neither the id
nor the count. -/
theorem commentOnPost_returns_no_id_or_count :
    (commentOnPost (noFaults idC1) db0 bodyNice).status = some 200 ∧
    (commentOnPost (noFaults idC1) db0 bodyNice).db.comments = [commentNice] ∧
    commentNice._id = idC1 ∧
    (commentOnPost (noFaults idC1) db0 bodyNice).db.posts.map (fun p => p.comments.length) = [1] ∧
    (commentOnPost (noFaults idC1) db0 bodyNice).res.map (fun r => r.body.hasValue (.str idC1))
      = some false ∧
    (commentOnPost (noFaults idC1) db0 bodyNice).res.map (fun r => r.body.hasValue (.num "1"))
      = some false := by
  decide

/-- C10, counterexample: a request that lacks `username` is answered 500, not 400,
although no store call fails. -/
theorem commentOnPost_missing_username_500 :
    bodyNoUsername.username = .undefined ∧
    (noFaults idC1).fails = (fun _ => false) ∧
    commentOnPost (noFaults idC1) db0 bodyNoUsername
      = ⟨some ⟨500, .message "Internal Server Error on comment"⟩, db0, []⟩ :=
  ⟨rfl, rfl, by decide⟩

/-- C10 (as the code has it): a request that lacks `comment`, `userID` or `postID`
is answered 400 and nothing is written; a request in which these three pass the
guard and `username`, `name`, `date` or `title` is absent is answered 500
`{message: "Internal Server Error on comment"}`, with or without a store failure,
and nothing is written. -/
theorem commentOnPost_missing_field (env : Env) (db : Db) (body : CommentBody) :
    ((body.comment = .undefined ∨ body.userID = .undefined ∨ body.postID = .undefined) →
      commentOnPost env db body = ⟨some ⟨400, .message "Please add comment"⟩, db, []⟩) ∧
    (body.comment.truthy = true → body.userID.truthy = true → body.postID.truthy = true →
      (body.username = .undefined ∨ body.name = .undefined ∨ body.date = .undefined ∨
        body.title = .undefined) →
      commentOnPost env db body
        = ⟨some ⟨500, .message "Internal Server Error on comment"⟩, db, []⟩) := by
  constructor
  · intro h
    unfold commentOnPost
    rcases h with h | h | h <;> simp [h, JVal.truthy]
  · intro h1 h2 h3 h
    have hv : ∃ e, Comment.validate env.newId body.toInput = .error e := by
      cases hval : Comment.validate env.newId body.toInput with
      | error e => exact ⟨e, rfl⟩
      | ok c =>
        obtain ⟨-, -, -, hun, hn, -, hd, ht⟩ := validate_ok hval
        rcases h with h | h | h | h
        · simp [CommentBody.toInput, h, requiredString, castString] at hun
        · simp [CommentBody.toInput, h, requiredString, castString] at hn
        · simp [CommentBody.toInput, h, requiredString, castString] at hd
        · simp [CommentBody.toInput, h, requiredString, castString] at ht
    obtain ⟨e, he⟩ := hv
    simp [commentOnPost, h1, h2, h3, Comment.create, he]

theorem commentOnPost_missing_field_witness :
    commentOnPost (noFaults idC1) db0 { bodyNice with postID := .undefined }
      = ⟨some ⟨400, .message "Please add comment"⟩, db0, []⟩ ∧
    commentOnPost (noFaults idC1) db0 { bodyNice with title := .undefined }
      = ⟨some ⟨500, .message "Internal Server Error on comment"⟩, db0, []⟩ :=
  ⟨(commentOnPost_missing_field (noFaults idC1) db0 { bodyNice with postID := .undefined }).1
      (Or.inr (Or.inr rfl)),
    (commentOnPost_missing_field (noFaults idC1) db0 { bodyNice with title := .undefined }).2
      (by decide) (by decide) (by decide) (Or.inr (Or.inr (Or.inr rfl)))⟩

/-- C5, counterexample: comment `c1` belongs to post `p1`; deleting it with the
`PostID` of post `p2` is answered 200 and leaves the entry for `c1` in the sequence
of `p1` although the comment is gone. -/
theorem deleteComment_breaks_invariant :
    Inv dbTwo ∧
    (deleteComment (noFaults idC1) dbTwo ⟨.str idC1, .str idP2⟩).status = some 200 ∧
    ¬ Inv (deleteComment (noFaults idC1) dbTwo ⟨.str idC1, .str idP2⟩).db := by
  decide

/-- C5 (as the code has it): with unique `_id`s in both collections, the invariant
holds after every `POST /comment-on-post` answered 200, and after a
`POST /delete-comment` answered 200 provided no post other than the one `PostID`
addresses has an entry for `CommentID`. -/
theorem invariant_preserved (env : Env) (db : Db) (hinv : Inv db)
    (hcomments : (db.comments.map (fun d => d._id)).Nodup)
    (hposts : (db.posts.map (fun p => p._id)).Nodup) :
    (∀ body : CommentBody, (commentOnPost env db body).status = some 200 →
      Inv (commentOnPost env db body).db) ∧
    (∀ body : DeleteBody, (deleteComment env db body).status = some 200 →
      (∀ p ∈ db.posts, castObjectId body.PostID ≠ .ok (some p._id) →
        ∀ e ∈ p.comments, castObjectId body.CommentID ≠ .ok (some e._id)) →
      Inv (deleteComment env db body).db) := by
  constructor
  · intro body h200
    obtain ⟨c, post, hvalid, hfresh, hfind, heq⟩ := commentOnPost_200 h200
    obtain ⟨hcast, -, hmem⟩ := postFindById_some hfind
    have hcp : castObjectId body.postID = .ok (some c.post) :=
      castObjectId_of_required (validate_ok hvalid).2.2.2.2.2.1
    have hpost : c.post = post._id := by
      rw [hcast] at hcp
      simpa using hcp.symm
    rw [heq]
    exact Inv_afterCreate hinv hposts hfresh (List.mem_of_find?_eq_some hmem) hpost
  · intro body h200 honly
    obtain ⟨c, pid, hc, hp, heq⟩ := deleteComment_200 h200
    obtain ⟨hcast, -, -⟩ := commentFindById_some hc
    rw [heq]
    apply Inv_afterDelete hinv hcomments hposts
    intro p hpm hne e he
    have := honly p hpm (by rw [hp]; simpa using hne) e he
    rw [hcast] at this
    simpa using fun h => this (by rw [h])

theorem invariant_preserved_witness :
    Inv (commentOnPost (noFaults idC1) db0 bodyNice).db ∧
    Inv (deleteComment (noFaults idC1) dbTwo ⟨.str idC1, .str idP1⟩).db :=
  ⟨(invariant_preserved (noFaults idC1) db0 (by decide) (by decide) (by decide)).1 bodyNice
      (by decide),
    (invariant_preserved (noFaults idC1) dbTwo (by decide) (by decide) (by decide)).2
      ⟨.str idC1, .str idP1⟩ (by decide) (by decide)⟩

end Blog
